import Mathlib

/-!
Verification of `echellogram_plot.py` (repository `pemberj/echellogram_plot`).

The file shallowly embeds the three pieces of the script that hold real logic:

* `wavelength_to_rgb` — the wavelength → RGB mapper (source lines 14–64);
* `trace_lines` — the spectral-line projector (source lines 120–154);
* `plot_echellogram` — the order-polyline assembly loop, the labeling policy
  and the spectral-line label pass (source lines 157–263).

Python floats are modelled as rationals (`ℚ`).  The floating-point power
`x ** gamma` has no exact rational counterpart, so every definition that uses
it is parametrised by a function `g : ℚ → ℚ` standing for `fun x => x ** gamma`;
instantiating `g` with e.g. `fun x => x * x` corresponds to `gamma = 2`, and
`id` to `gamma = 1`.  The external Zemax ray tracer is modelled as a function
`tracer : ℤ → ℚ → Option (ℚ × ℚ)`: `none` stands for the integer error code
returned by `zGetTrace` (the source tests `type(rayTraceData) is int`), and
`some (x, y)` for a successful trace at the given (order, wavelength).
Drawing onto the matplotlib axis is modelled as emitting a list of `DrawCmd`
values, in the order in which the corresponding matplotlib calls happen.
-/

/-- An RGB triple, as returned by `wavelength_to_rgb` in the source. -/
structure RGB where
  R : ℚ
  G : ℚ
  B : ℚ
deriving DecidableEq

/-- Embedding of `wavelength_to_rgb(wavelength, gamma)` (source lines 14–64).
`g` stands for the floating-point map `fun x => x ** gamma`; every `** gamma`
of the source becomes an application of `g`, and channels that the source sets
to a literal `0.` or `1.` (no power applied) stay literal here. -/
def wavelength_to_rgb (g : ℚ → ℚ) (wavelength : ℚ) : RGB :=
  if 380 ≤ wavelength ∧ wavelength ≤ 440 then
    let attenuation := 3/10 + 7/10 * (wavelength - 380) / (440 - 380)
    { R := g ((-(wavelength - 440) / (440 - 380)) * attenuation), G := 0
      B := g (1 * attenuation) }
  else if 440 ≤ wavelength ∧ wavelength ≤ 490 then
    { R := 0, G := g ((wavelength - 440) / (490 - 440)), B := 1 }
  else if 490 ≤ wavelength ∧ wavelength ≤ 510 then
    { R := 0, G := 1, B := g (-(wavelength - 510) / (510 - 490)) }
  else if 510 ≤ wavelength ∧ wavelength ≤ 580 then
    { R := g ((wavelength - 510) / (580 - 510)), G := 1, B := 0 }
  else if 580 ≤ wavelength ∧ wavelength ≤ 645 then
    { R := 1, G := g (-(wavelength - 645) / (645 - 580)), B := 0 }
  else if 645 ≤ wavelength ∧ wavelength ≤ 750 then
    let attenuation := 3/10 + 7/10 * (750 - wavelength) / (750 - 645)
    { R := g (1 * attenuation), G := 0, B := 0 }
  else
    { R := 0, G := 0, B := 0 }

/-- Modelled from the spec (section 4.1), for comparison with the source:
the same six bands, but with the gamma exponent applied "to the
attenuation-derived channel only", the interior saturation ramps of R, G and B
being plain linear interpolants of the fractional band position with no gamma
correction. -/
def wavelength_to_rgb_spec (g : ℚ → ℚ) (wavelength : ℚ) : RGB :=
  if 380 ≤ wavelength ∧ wavelength ≤ 440 then
    let attenuation := 3/10 + 7/10 * (wavelength - 380) / (440 - 380)
    { R := g ((-(wavelength - 440) / (440 - 380)) * attenuation), G := 0
      B := g (1 * attenuation) }
  else if 440 ≤ wavelength ∧ wavelength ≤ 490 then
    { R := 0, G := (wavelength - 440) / (490 - 440), B := 1 }
  else if 490 ≤ wavelength ∧ wavelength ≤ 510 then
    { R := 0, G := 1, B := -(wavelength - 510) / (510 - 490) }
  else if 510 ≤ wavelength ∧ wavelength ≤ 580 then
    { R := (wavelength - 510) / (580 - 510), G := 1, B := 0 }
  else if 580 ≤ wavelength ∧ wavelength ≤ 645 then
    { R := 1, G := -(wavelength - 645) / (645 - 580), B := 0 }
  else if 645 ≤ wavelength ∧ wavelength ≤ 750 then
    let attenuation := 3/10 + 7/10 * (750 - wavelength) / (750 - 645)
    { R := g (1 * attenuation), G := 0, B := 0 }
  else
    { R := 0, G := 0, B := 0 }

/-- One echelle order as exposed by the PyEchelle optical model: the order
index `m` and the four wavelength bounds read by `trace_lines`
(source lines 124–135).  The FSR bounds carry no ordering constraint. -/
structure EchOrder where
  m : ℤ
  minFSRwl : ℚ
  maxFSRwl : ℚ
  minWL : ℚ
  maxWL : ℚ
deriving DecidableEq

/-- The `min_wl` computed by `trace_lines` (source lines 128–135): with
`FSRonly` the source assigns `min_wl = o.maxFSRwl` (unconditional swap). -/
def order_min_wl (FSRonly : Bool) (o : EchOrder) : ℚ :=
  if FSRonly then o.maxFSRwl else o.minWL

/-- The `max_wl` computed by `trace_lines` (source lines 128–135): with
`FSRonly` the source assigns `max_wl = o.minFSRwl` (unconditional swap). -/
def order_max_wl (FSRonly : Bool) (o : EchOrder) : ℚ :=
  if FSRonly then o.minFSRwl else o.maxWL

/-- One record appended to `lines_xy` by `trace_lines` (source line 152):
`[line_name, o.m, line_wl, [x, y]]`. -/
structure SpectralLineRec where
  name : String
  m : ℤ
  wl : ℚ
  pos : ℚ × ℚ
deriving DecidableEq

/-- The inner loop of `trace_lines` over `line_list.items()` for one order
(source lines 137–152).  The window test is the source's
`line_wl > min_wl and line_wl < max_wl`; a tracer failure (`none`, the
source's integer return) executes `break`, i.e. drops the remaining lines of
this order. -/
def traceOrderLines (tracer : ℤ → ℚ → Option (ℚ × ℚ)) (FSRonly : Bool)
    (o : EchOrder) : List (String × ℚ) → List SpectralLineRec
  | [] => []
  | (line_name, wl_angstrom) :: rest =>
      let line_wl := wl_angstrom / 10000
      if order_min_wl FSRonly o < line_wl ∧ line_wl < order_max_wl FSRonly o then
        match tracer o.m line_wl with
        | none => []
        | some xy =>
            { name := line_name, m := o.m, wl := line_wl, pos := xy } ::
              traceOrderLines tracer FSRonly o rest
      else
        traceOrderLines tracer FSRonly o rest

/-- Embedding of `trace_lines(line_list, Echelle, FSRonly)`
(source lines 120–154): the outer loop over `Echelle.Orders.values()`
accumulates the per-order results in stream order. -/
def trace_lines (tracer : ℤ → ℚ → Option (ℚ × ℚ)) (line_list : List (String × ℚ))
    (orders : List EchOrder) (FSRonly : Bool) : List SpectralLineRec :=
  orders.flatMap fun o => traceOrderLines tracer FSRonly o line_list

/-- Payload of an `ax.text` call.  The source formats floats into strings
(`f-strings` with `:.0f` rounding, `\lambda=`/`m=` prefixes for `abs(m) == 90`
and padding spaces); the payload keeps the underlying data instead: which kind
of label it is, the exact number displayed, and whether the verbose form is
used. -/
inductive LabelText where
  | wavelengthLabel (wl_nm : ℚ) (verbose : Bool)
  | orderLabel (m_abs : ℕ) (verbose : Bool)
  | lineName (s : String)
deriving DecidableEq

/-- One drawing call issued by `plot_echellogram`, in source order:
`ax.set_xlim` / `ax.set_ylim` (lines 181–182), `ax.plot(hs, vs, color=c)`
(lines 191/193/233/235, first argument horizontal), `ax.text(h, v, payload)`
(lines 201/210/241), and the detector `plt.Polygon` (line 250).
Matplotlib's named color `"k"` is the RGB triple `(0, 0, 0)`. -/
inductive DrawCmd where
  | setXlim (lo hi : ℚ)
  | setYlim (lo hi : ℚ)
  | plot (hs vs : List ℚ) (color : RGB)
  | text (h v : ℚ) (payload : LabelText)
  | polygon (verts : List (ℚ × ℚ))
deriving DecidableEq

/-- The mutable accumulator of the assembly loop (source lines 175–177):
`working_m`, `order_xs`, `order_ys`, `order_wls`. -/
structure PlotState where
  working_m : ℤ
  order_xs : List ℚ
  order_ys : List ℚ
  order_wls : List ℚ
deriving DecidableEq

/-- The initial accumulator (source lines 175–177): sentinel order `0` and
empty coordinate/wavelength lists. -/
def initSt : PlotState :=
  { working_m := 0, order_xs := [], order_ys := [], order_wls := [] }

/-- Embedding of `np.mean(l)` on a rational list.  For `l = []`, `np.mean`
returns NaN (with a warning); here `0 / 0 = 0`.  The two are observationally
equal downstream: `wavelength_to_rgb` maps both NaN (every band comparison is
false) and `0` (below 380) to the sentinel `(0, 0, 0)`. -/
def npMean (l : List ℚ) : ℚ :=
  l.sum / (l.length : ℚ)

/-- The curve-drawing block of the assembly loop (source lines 189–193 and
231–235): color the accumulator by the mean of its wavelengths (µm → nm), and
plot `(order_ys, order_xs)` — black (`"k"`, i.e. `(0,0,0)`) when the color sum
is zero, the mapped color otherwise. -/
def emitCurve (g : ℚ → ℚ) (order_ys order_xs order_wls : List ℚ) : DrawCmd :=
  let col := wavelength_to_rgb g (npMean (order_wls.map (· * 1000)))
  if col.R + col.G + col.B = 0 then
    DrawCmd.plot order_ys order_xs { R := 0, G := 0, B := 0 }
  else
    DrawCmd.plot order_ys order_xs col

/-- The two label blocks executed at an order change (source lines 194–211),
with `b` the half-width of the axis limits, `m` the order of the *incoming*
point and `order_xs`/`order_ys`/`order_wls` the accumulator being closed.
`get_xlim() = get_ylim() = (-b, b)`; list index `[0]` is `headD _ 0` and
`[-1]` is `getLastD _ 0` (the guard `0 < len order_xs` keeps them in range in
the source). -/
def changeLabels (b : ℚ) (m : ℤ) (order_xs order_ys order_wls : List ℚ) :
    List DrawCmd :=
  if 0 < order_xs.length ∧ m % 5 = 0 then
    (if -b < order_xs.headD 0 ∧ order_xs.headD 0 < b then
      if -b < order_ys.headD 0 ∧ order_ys.headD 0 + 5 < b then
        [DrawCmd.text (order_ys.headD 0) (order_xs.headD 0)
          (LabelText.wavelengthLabel (order_wls.headD 0 * 1000) (m.natAbs == 90))]
      else []
    else []) ++
    (if -b < order_xs.headD 0 ∧ order_xs.headD 0 < b then
      if -b < order_ys.headD 0 - 3 ∧ order_ys.headD 0 < b then
        [DrawCmd.text (order_ys.getLastD 0) (order_xs.getLastD 0)
          (LabelText.orderLabel m.natAbs (m.natAbs == 90))]
      else []
    else [])
  else []

/-- One `SpectralFormat` row `point` (source line 185): `point[0] = m`,
`point[1]` the wavelength in µm, `point[2] = x`, `point[3] = y`. -/
structure SFPoint where
  m : ℤ
  wl : ℚ
  x : ℚ
  y : ℚ
deriving DecidableEq

/-- Appending the current point to the accumulator
(source lines 216–218, 220–223 and 226–229). -/
def pushPoint (st : PlotState) (p : SFPoint) : PlotState :=
  { st with
    order_xs := st.order_xs ++ [p.x]
    order_ys := st.order_ys ++ [p.y]
    order_wls := st.order_wls ++ [p.wl] }

/-- The state after the `if m != working_m` block (source lines 188–218):
on a change the accumulator is reset to the new order and seeded with the
incoming point, otherwise it is untouched. -/
def step1State (st : PlotState) (p : SFPoint) : PlotState :=
  if p.m ≠ st.working_m then
    { working_m := p.m, order_xs := [p.x], order_ys := [p.y], order_wls := [p.wl] }
  else st

/-- The drawing calls of the `if m != working_m` block (source lines 188–211):
the flush of the closing accumulator followed by its labels. -/
def step1Cmds (g : ℚ → ℚ) (b : ℚ) (st : PlotState) (p : SFPoint) : List DrawCmd :=
  if p.m ≠ st.working_m then
    emitCurve g st.order_ys st.order_xs st.order_wls ::
      changeLabels b p.m st.order_xs st.order_ys st.order_wls
  else []

/-- The state after the separate `if m == working_m` block (source
lines 220–223), which appends the point again — its guard always holds,
because the first block just set `working_m = m` when they differed. -/
def step2State (st : PlotState) (p : SFPoint) : PlotState :=
  if p.m = (step1State st p).working_m then pushPoint (step1State st p) p
  else step1State st p

/-- One full iteration of the assembly loop for point `p` (source
lines 185–235).  `isLast` is `i == len(SpectralFormat) - 1`: on the last point
the source appends the point once more and flushes the accumulator with no
labels (lines 226–235). -/
def stepPoint (g : ℚ → ℚ) (b : ℚ) (st : PlotState) (p : SFPoint)
    (isLast : Bool) : List DrawCmd × PlotState :=
  if isLast then
    (step1Cmds g b st p ++
      [emitCurve g (pushPoint (step2State st p) p).order_ys
        (pushPoint (step2State st p) p).order_xs
        (pushPoint (step2State st p) p).order_wls],
     pushPoint (step2State st p) p)
  else
    (step1Cmds g b st p, step2State st p)

/-- The assembly loop `for i, point in enumerate(SpectralFormat)`
(source lines 185–235), collecting the drawing calls in order. -/
def plotLoop (g : ℚ → ℚ) (b : ℚ) (st : PlotState) : List SFPoint → List DrawCmd
  | [] => []
  | p :: rest =>
      (stepPoint g b st p rest.isEmpty).1 ++
        plotLoop g b (stepPoint g b st p rest.isEmpty).2 rest

/-- The spectral-line label pass `for line in lines_xy`
(source lines 237–243): test `x` against the x-limits and `y` against the
y-limits, both strictly, and draw the line's name at `(y, x)`. -/
def lineLabels (b : ℚ) (lines_xy : List SpectralLineRec) : List DrawCmd :=
  lines_xy.flatMap fun line =>
    if -b < line.pos.1 ∧ line.pos.1 < b then
      if -b < line.pos.2 ∧ line.pos.2 < b then
        [DrawCmd.text line.pos.2 line.pos.1 (LabelText.lineName line.name)]
      else []
    else []

/-- Embedding of `plot_echellogram(ax, SpectralFormat, lines_xy,
detector_corners)` (source lines 157–263) as the list of drawing calls it
issues: axis limits at `b = abs(detector_corners[0]) * 1.25` (lines 180–182),
the assembly loop, the spectral-line labels, and the detector outline at the
unscaled half-extent (lines 246–251).  `dc0` is `detector_corners[0]`. -/
def plot_echellogram (g : ℚ → ℚ) (SpectralFormat : List SFPoint)
    (lines_xy : List SpectralLineRec) (dc0 : ℚ) : List DrawCmd :=
  let b := |dc0| * (5/4)
  DrawCmd.setXlim (-b) b :: DrawCmd.setYlim (-b) b ::
    (plotLoop g b initSt SpectralFormat ++
      lineLabels b lines_xy ++
      [DrawCmd.polygon
        [(-|dc0|, -|dc0|), (|dc0|, -|dc0|), (|dc0|, |dc0|), (-|dc0|, |dc0|)]])

/-- Number of points of a single drawing call: the length of the coordinate
lists of an `ax.plot` call, `0` for everything else. -/
def plotPointCount : DrawCmd → ℕ
  | .plot hs _ _ => hs.length
  | _ => 0

/-- Total number of polyline points across all drawing calls of a pass. -/
def totalPlottedPoints (cmds : List DrawCmd) : ℕ :=
  (cmds.map plotPointCount).sum

/-- Recognizes an `ax.plot` call with an empty coordinate list. -/
def isEmptyPlot : DrawCmd → Bool
  | .plot [] _ _ => true
  | _ => false

/-- Recognizes an `ax.text` call. -/
def isText : DrawCmd → Bool
  | .text _ _ _ => true
  | _ => false

/-- A state invariant for the transposition argument: the coordinate lists
have equal length and every accumulated `(x, y)` pair satisfies `Q`. -/
def StInv (Q : ℚ × ℚ → Prop) (st : PlotState) : Prop :=
  st.order_xs.length = st.order_ys.length ∧
    ∀ q ∈ st.order_xs.zip st.order_ys, Q q

/-! ## Helper lemmas about `trace_lines` -/

theorem traceOrderLines_mem (tracer : ℤ → ℚ → Option (ℚ × ℚ)) (FSRonly : Bool)
    (o : EchOrder) :
    ∀ (ll : List (String × ℚ)) (rec : SpectralLineRec),
      rec ∈ traceOrderLines tracer FSRonly o ll →
      rec.m = o.m ∧ order_min_wl FSRonly o < rec.wl ∧
        rec.wl < order_max_wl FSRonly o ∧
        ∃ nm wlA, (nm, wlA) ∈ ll ∧ rec.name = nm ∧ rec.wl = wlA / 10000
  | [], rec, h => absurd h (List.not_mem_nil rec)
  | (nm, wlA) :: rest, rec, h => by
      simp only [traceOrderLines] at h
      by_cases hw : order_min_wl FSRonly o < wlA / 10000 ∧
          wlA / 10000 < order_max_wl FSRonly o
      · rw [if_pos hw] at h
        cases htr : tracer o.m (wlA / 10000) with
        | none => rw [htr] at h; exact absurd h (List.not_mem_nil rec)
        | some xy =>
            rw [htr] at h
            rcases List.mem_cons.mp h with hrec | hrec
            · subst hrec
              exact ⟨rfl, hw.1, hw.2, nm, wlA, List.mem_cons_self _ _, rfl, rfl⟩
            · obtain ⟨hm, h₁, h₂, nm', wlA', hmem, hn, hwl⟩ :=
                traceOrderLines_mem tracer FSRonly o rest rec hrec
              exact ⟨hm, h₁, h₂, nm', wlA', List.mem_cons_of_mem _ hmem, hn, hwl⟩
      · rw [if_neg hw] at h
        obtain ⟨hm, h₁, h₂, nm', wlA', hmem, hn, hwl⟩ :=
          traceOrderLines_mem tracer FSRonly o rest rec h
        exact ⟨hm, h₁, h₂, nm', wlA', List.mem_cons_of_mem _ hmem, hn, hwl⟩

theorem traceOrderLines_empty_window (tracer : ℤ → ℚ → Option (ℚ × ℚ))
    (FSRonly : Bool) (o : EchOrder)
    (h : order_max_wl FSRonly o ≤ order_min_wl FSRonly o) :
    ∀ ll : List (String × ℚ), traceOrderLines tracer FSRonly o ll = []
  | [] => rfl
  | (nm, wlA) :: rest => by
      simp only [traceOrderLines]
      rw [if_neg, traceOrderLines_empty_window tracer FSRonly o h rest]
      rintro ⟨h₁, h₂⟩
      exact absurd (h₁.trans h₂) (not_lt.mpr h)

theorem traceOrderLines_break_at (tracer : ℤ → ℚ → Option (ℚ × ℚ))
    (FSRonly : Bool) (o : EchOrder) (nm : String) (wlA : ℚ)
    (post : List (String × ℚ)) :
    ∀ pre : List (String × ℚ),
      (∀ p ∈ pre, order_min_wl FSRonly o < p.2 / 10000 →
        p.2 / 10000 < order_max_wl FSRonly o → tracer o.m (p.2 / 10000) ≠ none) →
      (order_min_wl FSRonly o < wlA / 10000 ∧
        wlA / 10000 < order_max_wl FSRonly o) →
      tracer o.m (wlA / 10000) = none →
      traceOrderLines tracer FSRonly o (pre ++ (nm, wlA) :: post) =
        traceOrderLines tracer FSRonly o pre
  | [], _, hwin, hfail => by
      simp only [List.nil_append, traceOrderLines]
      rw [if_pos hwin, hfail]
  | (n₁, w₁) :: pre, hpre, hwin, hfail => by
      have ih := traceOrderLines_break_at tracer FSRonly o nm wlA post pre
        (fun p hp => hpre p (List.mem_cons_of_mem _ hp)) hwin hfail
      simp only [List.cons_append, traceOrderLines, List.append_eq]
      by_cases hw : order_min_wl FSRonly o < w₁ / 10000 ∧
          w₁ / 10000 < order_max_wl FSRonly o
      · rw [if_pos hw, if_pos hw]
        cases htr : tracer o.m (w₁ / 10000) with
        | none =>
            exact absurd htr (hpre (n₁, w₁) (List.mem_cons_self _ _) hw.1 hw.2)
        | some xy => rw [ih]
      · rw [if_neg hw, if_neg hw, ih]

/-! ## Claims about `trace_lines` -/

/-- C9: every record emitted by `trace_lines` comes from an order of the scan
and a line of the catalog whose wavelength, after the angstrom-to-micron
division by 10000, lies strictly between the window bounds the source computes
for that order (`min_wl`/`max_wl`); in particular its wavelength is distinct
from both bounds, so a line sitting exactly on a bound is never traced. -/
theorem c9_strict_open_interval (tracer : ℤ → ℚ → Option (ℚ × ℚ))
    (line_list : List (String × ℚ)) (orders : List EchOrder) (FSRonly : Bool)
    (rec : SpectralLineRec) (h : rec ∈ trace_lines tracer line_list orders FSRonly) :
    ∃ o, o ∈ orders ∧ rec.m = o.m ∧
      order_min_wl FSRonly o < rec.wl ∧ rec.wl < order_max_wl FSRonly o ∧
      rec.wl ≠ order_min_wl FSRonly o ∧ rec.wl ≠ order_max_wl FSRonly o ∧
      ∃ nm wlA, (nm, wlA) ∈ line_list ∧ rec.name = nm ∧ rec.wl = wlA / 10000 := by
  obtain ⟨o, ho, hmem⟩ := List.mem_flatMap.mp h
  obtain ⟨hm, h₁, h₂, rest⟩ := traceOrderLines_mem tracer FSRonly o line_list rec hmem
  exact ⟨o, ho, hm, h₁, h₂, ne_of_gt h₁, ne_of_lt h₂, rest⟩

/-- Witness for C9 on a concrete scan: one order with (reversed-stored) FSR
bounds 0.6/0.7 µm, the H-alpha line at 6564 Å, an always-succeeding tracer. -/
theorem c9_witness :
    ∃ o, o ∈ [(⟨-50, 7/10, 6/10, 6/10, 7/10⟩ : EchOrder)] ∧
      (⟨"Ha", -50, 1641/2500, (1641/2500, 0)⟩ : SpectralLineRec).m = o.m ∧
      order_min_wl true o < 1641/2500 ∧ (1641/2500 : ℚ) < order_max_wl true o ∧
      (1641/2500 : ℚ) ≠ order_min_wl true o ∧
      (1641/2500 : ℚ) ≠ order_max_wl true o ∧
      ∃ nm wlA, (nm, wlA) ∈ [(("Ha" : String), (6564 : ℚ))] ∧
        ("Ha" : String) = nm ∧ (1641/2500 : ℚ) = wlA / 10000 :=
  c9_strict_open_interval (fun _ wl => some (wl, 0)) [("Ha", 6564)]
    [⟨-50, 7/10, 6/10, 6/10, 7/10⟩]
    true ⟨"Ha", -50, 1641/2500, (1641/2500, 0)⟩
    (by norm_num [trace_lines, traceOrderLines, order_min_wl, order_max_wl])

/-- C2 counterexample: a concrete scan where the tracer fails on H-alpha
(0.6564 µm): the next catalog line CaH3 (0.6977 µm) also lies strictly inside
the same order's window and the tracer would succeed on it, yet the scan of
the order produces nothing — `break` skipped the remaining lines of the
order, so more than the single failing (line, order) pair was dropped. -/
theorem c2_counterexample :
    trace_lines (fun _ wl => if wl = 1641/2500 then none else some (wl, 0))
        [("Ha", 6564), ("CaH3", 6977)] [⟨-50, 7/10, 6/10, 6/10, 7/10⟩] true = [] ∧
    order_min_wl true ⟨-50, 7/10, 6/10, 6/10, 7/10⟩ < 6977 / 10000 ∧
    (6977 / 10000 : ℚ) < order_max_wl true ⟨-50, 7/10, 6/10, 6/10, 7/10⟩ ∧
    (fun _ wl => if wl = 1641/2500 then none else some (wl, 0)) (-50 : ℤ)
        ((6977 : ℚ) / 10000) = some (6977 / 10000, 0) := by
  refine ⟨?_, by norm_num [order_min_wl], by norm_num [order_max_wl], ?_⟩ <;>
    norm_num [trace_lines, traceOrderLines, order_min_wl, order_max_wl]

/-- C2 amended: when the tracer reports a failure at a reachable catalog line
of an order, the source's `break` drops that line *and every later line of the
same order* (the order's output is exactly that of the preceding catalog
prefix), while the outer loop still scans all remaining orders over the full
catalog; the scan as a whole is not aborted. -/
theorem c2_break_skips_rest_of_order_not_scan
    (tracer : ℤ → ℚ → Option (ℚ × ℚ)) (FSRonly : Bool) (o : EchOrder)
    (orders : List EchOrder) (pre post : List (String × ℚ)) (nm : String)
    (wlA : ℚ)
    (hpre : ∀ p ∈ pre, order_min_wl FSRonly o < p.2 / 10000 →
      p.2 / 10000 < order_max_wl FSRonly o → tracer o.m (p.2 / 10000) ≠ none)
    (hwin : order_min_wl FSRonly o < wlA / 10000 ∧
      wlA / 10000 < order_max_wl FSRonly o)
    (hfail : tracer o.m (wlA / 10000) = none) :
    trace_lines tracer (pre ++ (nm, wlA) :: post) (o :: orders) FSRonly =
      traceOrderLines tracer FSRonly o pre ++
        trace_lines tracer (pre ++ (nm, wlA) :: post) orders FSRonly := by
  simp only [trace_lines, List.flatMap_cons]
  rw [traceOrderLines_break_at tracer FSRonly o nm wlA post pre hpre hwin hfail]

/-- Witness for the amended C2 on a concrete scan: order `-50` traces CaH2,
fails on H-alpha and drops CaH3, while order `-40` is still scanned in full. -/
theorem c2_amended_witness :
    trace_lines (fun _ wl => if wl = 1641/2500 then none else some (wl, 0))
        ([("CaH2", 6832)] ++ ("Ha", 6564) :: [("CaH3", 6977)])
        ((⟨-50, 7/10, 6/10, 6/10, 7/10⟩ : EchOrder) ::
          [⟨-40, 8/10, 7/10, 7/10, 8/10⟩]) true =
      traceOrderLines (fun _ wl => if wl = 1641/2500 then none else some (wl, 0))
          true ⟨-50, 7/10, 6/10, 6/10, 7/10⟩ [("CaH2", 6832)] ++
        trace_lines (fun _ wl => if wl = 1641/2500 then none else some (wl, 0))
          ([("CaH2", 6832)] ++ ("Ha", 6564) :: [("CaH3", 6977)])
          [⟨-40, 8/10, 7/10, 7/10, 8/10⟩] true :=
  c2_break_skips_rest_of_order_not_scan _ true _ _ _ _ "Ha" 6564
    (by
      intro p hp h1 h2
      rw [List.mem_singleton] at hp
      subst hp
      norm_num
      exact Option.some_ne_none _)
    (by norm_num [order_min_wl, order_max_wl])
    (by norm_num)

/-- C3 counterexample: an order whose FSR bounds are stored in the normal
orientation (`minFSRwl = 0.4 < 0.6 = maxFSRwl`) and a line at 0.5 µm strictly
between the two stored values: the scan emits nothing, because the source
swaps the fields unconditionally instead of normalizing, leaving an empty
test window — the claim's "accepted regardless of which of the two stored
fields is larger" fails. -/
theorem c3_counterexample :
    trace_lines (fun _ wl => some (wl, 0)) [("L", 5000)]
        [⟨-50, 4/10, 6/10, 0, 1⟩] true = [] ∧
    (⟨-50, 4/10, 6/10, 0, 1⟩ : EchOrder).minFSRwl < 5000 / 10000 ∧
    (5000 / 10000 : ℚ) < (⟨-50, 4/10, 6/10, 0, 1⟩ : EchOrder).maxFSRwl := by
  norm_num [trace_lines, traceOrderLines, order_min_wl, order_max_wl]

/-- C3 amended: the FSR branch swaps the two stored fields unconditionally
(`min_wl = maxFSRwl`, `max_wl = minFSRwl`), with no normalization.  When the
bounds are stored reversed (`minFSRwl > maxFSRwl`, the negative-order layout
of the reference configuration), this yields a proper window and a line
strictly between the stored values is traced and emitted; when they are
stored with `minFSRwl ≤ maxFSRwl`, the resulting test window is empty and
every line of the catalog is rejected. -/
theorem c3_swap_is_unconditional (tracer : ℤ → ℚ → Option (ℚ × ℚ))
    (o : EchOrder) (nm : String) (wlA x y : ℚ) (ll : List (String × ℚ)) :
    (o.maxFSRwl < wlA / 10000 → wlA / 10000 < o.minFSRwl →
      tracer o.m (wlA / 10000) = some (x, y) →
      traceOrderLines tracer true o [(nm, wlA)] =
        [⟨nm, o.m, wlA / 10000, (x, y)⟩]) ∧
    (o.minFSRwl ≤ o.maxFSRwl → traceOrderLines tracer true o ll = []) := by
  have hmin : order_min_wl true o = o.maxFSRwl := rfl
  have hmax : order_max_wl true o = o.minFSRwl := rfl
  constructor
  · intro h1 h2 htr
    simp only [traceOrderLines, hmin, hmax]
    rw [if_pos ⟨h1, h2⟩, htr]
  · intro hle
    exact traceOrderLines_empty_window tracer true o
      (by rw [hmin, hmax]; exact hle) ll

/-- Witness for the amended C3: the reversed-stored order accepts H-alpha,
and a normally-stored order rejects a line strictly between its bounds. -/
theorem c3_witness :
    traceOrderLines (fun _ wl => some (wl, 0)) true
        (⟨-50, 7/10, 6/10, 6/10, 7/10⟩ : EchOrder) [("Ha", 6564)] =
      [⟨"Ha", -50, 6564 / 10000, (6564 / 10000, 0)⟩] ∧
    traceOrderLines (fun _ wl => some (wl, 0)) true
        (⟨-50, 4/10, 6/10, 0, 1⟩ : EchOrder) [("L", 5000)] = [] :=
  ⟨(c3_swap_is_unconditional (fun _ wl => some (wl, 0))
        ⟨-50, 7/10, 6/10, 6/10, 7/10⟩ "Ha" 6564 (6564 / 10000) 0 []).1
      (by norm_num) (by norm_num) rfl,
    (c3_swap_is_unconditional (fun _ wl => some (wl, 0))
        ⟨-50, 4/10, 6/10, 0, 1⟩ "L" 5000 0 0 [("L", 5000)]).2 (by norm_num)⟩

/-- C6 counterexample: at 465 nm with `gamma = 2` (modelled by squaring), the
source's G channel is `((465-440)/50) ** gamma = 1/4`, not the plain linear
ramp value `1/2` that the claim asserts for the interior bands: the gamma
exponent *is* applied to the interior saturation ramp, so the code disagrees
with the spec-modelled mapper. -/
theorem c6_counterexample :
    wavelength_to_rgb (fun x => x * x) 465 = ⟨0, 1/4, 1⟩ ∧
    wavelength_to_rgb_spec (fun x => x * x) 465 = ⟨0, 1/2, 1⟩ := by
  constructor <;> norm_num [wavelength_to_rgb, wavelength_to_rgb_spec]

/-- C6 amended: inside every band the gamma exponent is applied to *every*
non-constant channel — the attenuation-derived channels of the two edge bands
*and* the saturation ramps of the four interior bands; only the channels the
source sets to a literal `0.` or `1.` escape it. -/
theorem c6_gamma_applies_to_every_ramp (g : ℚ → ℚ) (wl : ℚ) :
    (380 ≤ wl ∧ wl ≤ 440 →
      wavelength_to_rgb g wl =
        ⟨g ((-(wl - 440) / (440 - 380)) * (3/10 + 7/10 * (wl - 380) / (440 - 380))),
          0, g (1 * (3/10 + 7/10 * (wl - 380) / (440 - 380)))⟩) ∧
    (440 < wl ∧ wl < 490 →
      wavelength_to_rgb g wl = ⟨0, g ((wl - 440) / (490 - 440)), 1⟩) ∧
    (490 < wl ∧ wl < 510 →
      wavelength_to_rgb g wl = ⟨0, 1, g (-(wl - 510) / (510 - 490))⟩) ∧
    (510 < wl ∧ wl < 580 →
      wavelength_to_rgb g wl = ⟨g ((wl - 510) / (580 - 510)), 1, 0⟩) ∧
    (580 < wl ∧ wl < 645 →
      wavelength_to_rgb g wl = ⟨1, g (-(wl - 645) / (645 - 580)), 0⟩) ∧
    (645 < wl ∧ wl ≤ 750 →
      wavelength_to_rgb g wl =
        ⟨g (1 * (3/10 + 7/10 * (750 - wl) / (750 - 645))), 0, 0⟩) := by
  refine ⟨fun h => ?_, fun h => ?_, fun h => ?_, fun h => ?_, fun h => ?_,
    fun h => ?_⟩ <;> obtain ⟨h1, h2⟩ := h <;> unfold wavelength_to_rgb
  · rw [if_pos ⟨h1, h2⟩]
  · rw [if_neg (by rintro ⟨-, hc⟩; linarith), if_pos ⟨by linarith, by linarith⟩]
  · rw [if_neg (by rintro ⟨-, hc⟩; linarith), if_neg (by rintro ⟨-, hc⟩; linarith),
      if_pos ⟨by linarith, by linarith⟩]
  · rw [if_neg (by rintro ⟨-, hc⟩; linarith), if_neg (by rintro ⟨-, hc⟩; linarith),
      if_neg (by rintro ⟨-, hc⟩; linarith), if_pos ⟨by linarith, by linarith⟩]
  · rw [if_neg (by rintro ⟨-, hc⟩; linarith), if_neg (by rintro ⟨-, hc⟩; linarith),
      if_neg (by rintro ⟨-, hc⟩; linarith), if_neg (by rintro ⟨-, hc⟩; linarith),
      if_pos ⟨by linarith, by linarith⟩]
  · rw [if_neg (by rintro ⟨-, hc⟩; linarith), if_neg (by rintro ⟨-, hc⟩; linarith),
      if_neg (by rintro ⟨-, hc⟩; linarith), if_neg (by rintro ⟨-, hc⟩; linarith),
      if_neg (by rintro ⟨-, hc⟩; linarith), if_pos ⟨by linarith, h2⟩]

/-- Witness for the amended C6 in the 510–580 band at 545 nm. -/
theorem c6_witness :
    wavelength_to_rgb (fun x => x * x) 545 =
      ⟨(fun x => x * x) (((545 : ℚ) - 510) / (580 - 510)), 1, 0⟩ :=
  (c6_gamma_applies_to_every_ramp (fun x => x * x) 545).2.2.2.1 (by norm_num)

/-! ## Helper lemmas about the assembly loop -/

theorem changeLabels_mem_shape (b : ℚ) (m : ℤ) (xs ys wls : List ℚ) :
    ∀ cmd ∈ changeLabels b m xs ys wls,
      m % 5 = 0 ∧ 0 < xs.length ∧
        (cmd = DrawCmd.text (ys.headD 0) (xs.headD 0)
            (LabelText.wavelengthLabel (wls.headD 0 * 1000) (m.natAbs == 90)) ∨
          cmd = DrawCmd.text (ys.getLastD 0) (xs.getLastD 0)
            (LabelText.orderLabel m.natAbs (m.natAbs == 90))) := by
  intro cmd hcmd
  unfold changeLabels at hcmd
  by_cases hgate : 0 < xs.length ∧ m % 5 = 0
  · rw [if_pos hgate] at hcmd
    refine ⟨hgate.2, hgate.1, ?_⟩
    rcases List.mem_append.mp hcmd with h | h
    · split_ifs at h with h₁ h₂
      · exact Or.inl (List.mem_singleton.mp h)
      · exact absurd h (List.not_mem_nil cmd)
      · exact absurd h (List.not_mem_nil cmd)
    · split_ifs at h with h₁ h₂
      · exact Or.inr (List.mem_singleton.mp h)
      · exact absurd h (List.not_mem_nil cmd)
      · exact absurd h (List.not_mem_nil cmd)
  · rw [if_neg hgate] at hcmd
    exact absurd hcmd (List.not_mem_nil cmd)

theorem changeLabels_eq_nil (b : ℚ) (m : ℤ) (xs ys wls : List ℚ)
    (h : ¬(0 < xs.length ∧ m % 5 = 0)) : changeLabels b m xs ys wls = [] := by
  unfold changeLabels
  exact if_neg h

theorem emitCurve_shape (g : ℚ → ℚ) (ys xs wls : List ℚ) :
    ∃ c, emitCurve g ys xs wls = DrawCmd.plot ys xs c := by
  simp only [emitCurve]
  split_ifs <;> exact ⟨_, rfl⟩

theorem isEmptyPlot_emitCurve (g : ℚ → ℚ) (ys xs wls : List ℚ) (hys : ys ≠ []) :
    isEmptyPlot (emitCurve g ys xs wls) = false := by
  obtain ⟨c, hc⟩ := emitCurve_shape g ys xs wls
  rw [hc]
  cases ys with
  | nil => exact absurd rfl hys
  | cons a l => rfl

theorem step1State_working (st : PlotState) (p : SFPoint) :
    p.m = (step1State st p).working_m := by
  unfold step1State
  split_ifs with h
  · rfl
  · exact not_not.mp h

theorem step2State_eq_push (st : PlotState) (p : SFPoint) :
    step2State st p = pushPoint (step1State st p) p := by
  unfold step2State
  rw [if_pos (step1State_working st p)]

theorem stepPoint_snd_ys (g : ℚ → ℚ) (b : ℚ) (st : PlotState) (p : SFPoint)
    (l : Bool) : (stepPoint g b st p l).2.order_ys ≠ [] := by
  unfold stepPoint
  split_ifs
  · simp [pushPoint]
  · rw [step2State_eq_push]
    simp [pushPoint]

theorem stepPoint_cmds_no_empty (g : ℚ → ℚ) (b : ℚ) (st : PlotState)
    (p : SFPoint) (l : Bool) (hys : st.order_ys ≠ []) :
    ∀ cmd ∈ (stepPoint g b st p l).1, isEmptyPlot cmd = false := by
  have hstep1 : ∀ c ∈ step1Cmds g b st p, isEmptyPlot c = false := by
    intro c hc
    unfold step1Cmds at hc
    split_ifs at hc with hch
    · rcases List.mem_cons.mp hc with hc | hc
      · subst hc
        exact isEmptyPlot_emitCurve g _ _ _ hys
      · obtain ⟨-, -, hsh⟩ :=
          changeLabels_mem_shape b p.m st.order_xs st.order_ys st.order_wls c hc
        rcases hsh with h | h <;> (subst h; rfl)
    · exact absurd hc (List.not_mem_nil c)
  intro cmd hcmd
  unfold stepPoint at hcmd
  split_ifs at hcmd
  · rcases List.mem_append.mp hcmd with h | h
    · exact hstep1 cmd h
    · rw [List.mem_singleton] at h
      subst h
      exact isEmptyPlot_emitCurve g _ _ _ (by simp [pushPoint])
  · exact hstep1 cmd hcmd

theorem plotLoop_no_empty (g : ℚ → ℚ) (b : ℚ) :
    ∀ (ps : List SFPoint) (st : PlotState), st.order_ys ≠ [] →
      ∀ cmd ∈ plotLoop g b st ps, isEmptyPlot cmd = false
  | [], _, _, cmd, hcmd => absurd hcmd (List.not_mem_nil cmd)
  | p :: rest, st, hys, cmd, hcmd => by
      simp only [plotLoop] at hcmd
      rcases List.mem_append.mp hcmd with h | h
      · exact stepPoint_cmds_no_empty g b st p rest.isEmpty hys cmd h
      · exact plotLoop_no_empty g b rest _
          (stepPoint_snd_ys g b st p rest.isEmpty) cmd h

theorem stepPoint_no_lineName (g : ℚ → ℚ) (b : ℚ) (st : PlotState)
    (p : SFPoint) (l : Bool) :
    ∀ cmd ∈ (stepPoint g b st p l).1, ∀ h v s,
      cmd ≠ DrawCmd.text h v (LabelText.lineName s) := by
  have hemit : ∀ (ys xs wls : List ℚ) (h v : ℚ) (s : String),
      emitCurve g ys xs wls ≠ DrawCmd.text h v (LabelText.lineName s) := by
    intro ys xs wls h v s heq
    obtain ⟨c, hc⟩ := emitCurve_shape g ys xs wls
    rw [hc] at heq
    exact DrawCmd.noConfusion heq
  have hstep1 : ∀ c ∈ step1Cmds g b st p, ∀ h v s,
      c ≠ DrawCmd.text h v (LabelText.lineName s) := by
    intro c hc h v s
    unfold step1Cmds at hc
    split_ifs at hc with hch
    · rcases List.mem_cons.mp hc with hc | hc
      · subst hc
        exact hemit _ _ _ h v s
      · obtain ⟨-, -, hsh⟩ :=
          changeLabels_mem_shape b p.m st.order_xs st.order_ys st.order_wls c hc
        rcases hsh with hc | hc <;> (subst hc; intro heq; simp at heq)
    · exact absurd hc (List.not_mem_nil c)
  intro cmd hcmd
  unfold stepPoint at hcmd
  split_ifs at hcmd
  · rcases List.mem_append.mp hcmd with h | h
    · exact hstep1 cmd h
    · rw [List.mem_singleton] at h
      subst h
      exact fun h v s => hemit _ _ _ h v s
  · exact hstep1 cmd hcmd

theorem plotLoop_no_lineName (g : ℚ → ℚ) (b : ℚ) :
    ∀ (ps : List SFPoint) (st : PlotState), ∀ cmd ∈ plotLoop g b st ps,
      ∀ h v s, cmd ≠ DrawCmd.text h v (LabelText.lineName s)
  | [], _, cmd, hcmd => absurd hcmd (List.not_mem_nil cmd)
  | p :: rest, st, cmd, hcmd => by
      simp only [plotLoop] at hcmd
      rcases List.mem_append.mp hcmd with h | h
      · exact stepPoint_no_lineName g b st p rest.isEmpty cmd h
      · exact plotLoop_no_lineName g b rest _ cmd h


theorem initSt_inv (Q : ℚ × ℚ → Prop) : StInv Q initSt :=
  ⟨rfl, fun q hq => absurd hq (List.not_mem_nil q)⟩

theorem pushPoint_inv (Q : ℚ × ℚ → Prop) (st : PlotState) (p : SFPoint)
    (hinv : StInv Q st) (hp : Q (p.x, p.y)) : StInv Q (pushPoint st p) := by
  obtain ⟨hlen, hzip⟩ := hinv
  constructor
  · simp [pushPoint, hlen]
  · simp only [pushPoint]
    rw [List.zip_append hlen]
    intro q hq
    rcases List.mem_append.mp hq with h | h
    · exact hzip q h
    · simp only [List.zip_cons_cons, List.zip_nil_right, List.mem_singleton] at h
      subst h
      exact hp

theorem step1State_inv (Q : ℚ × ℚ → Prop) (st : PlotState) (p : SFPoint)
    (hinv : StInv Q st) (hp : Q (p.x, p.y)) : StInv Q (step1State st p) := by
  unfold step1State
  split_ifs
  · constructor
    · rfl
    · intro q hq
      simp only [List.zip_cons_cons, List.zip_nil_right, List.mem_singleton] at hq
      subst hq
      exact hp
  · exact hinv

theorem stepPoint_snd_inv (Q : ℚ × ℚ → Prop) (g : ℚ → ℚ) (b : ℚ)
    (st : PlotState) (p : SFPoint) (l : Bool) (hinv : StInv Q st)
    (hp : Q (p.x, p.y)) : StInv Q (stepPoint g b st p l).2 := by
  have h2 : StInv Q (step2State st p) := by
    rw [step2State_eq_push]
    exact pushPoint_inv Q _ p (step1State_inv Q st p hinv hp) hp
  unfold stepPoint
  split_ifs
  · exact pushPoint_inv Q _ p h2 hp
  · exact h2

theorem stepPoint_cmds_zip (Q : ℚ × ℚ → Prop) (g : ℚ → ℚ) (b : ℚ)
    (st : PlotState) (p : SFPoint) (l : Bool) (hinv : StInv Q st)
    (hp : Q (p.x, p.y)) :
    ∀ hs vs c, DrawCmd.plot hs vs c ∈ (stepPoint g b st p l).1 →
      ∀ q ∈ vs.zip hs, Q q := by
  have hflush : ∀ (stc : PlotState), StInv Q stc → ∀ hs vs c,
      DrawCmd.plot hs vs c =
        emitCurve g stc.order_ys stc.order_xs stc.order_wls →
      ∀ q ∈ vs.zip hs, Q q := by
    intro stc hstc hs vs c heq q hq
    obtain ⟨c', hc'⟩ := emitCurve_shape g stc.order_ys stc.order_xs stc.order_wls
    rw [hc'] at heq
    injection heq with h1 h2 h3
    subst h1
    subst h2
    exact hstc.2 q hq
  have hstep1 : ∀ hs vs c, DrawCmd.plot hs vs c ∈ step1Cmds g b st p →
      ∀ q ∈ vs.zip hs, Q q := by
    intro hs vs c hc
    unfold step1Cmds at hc
    split_ifs at hc with hch
    · rcases List.mem_cons.mp hc with hc | hc
      · exact hflush st hinv hs vs c hc
      · obtain ⟨-, -, hsh⟩ :=
          changeLabels_mem_shape b p.m st.order_xs st.order_ys st.order_wls _ hc
        rcases hsh with hc | hc <;> exact absurd hc (by intro hcc; cases hcc)
    · exact absurd hc (List.not_mem_nil _)
  intro hs vs c hcmd
  unfold stepPoint at hcmd
  split_ifs at hcmd
  · rcases List.mem_append.mp hcmd with h | h
    · exact hstep1 hs vs c h
    · rw [List.mem_singleton] at h
      refine hflush (pushPoint (step2State st p) p) ?_ hs vs c h
      refine pushPoint_inv Q _ p ?_ hp
      rw [step2State_eq_push]
      exact pushPoint_inv Q _ p (step1State_inv Q st p hinv hp) hp
  · exact hstep1 hs vs c hcmd

theorem plotLoop_zip (Q : ℚ × ℚ → Prop) (g : ℚ → ℚ) (b : ℚ) :
    ∀ (ps : List SFPoint) (st : PlotState), StInv Q st →
      (∀ p ∈ ps, Q (p.x, p.y)) →
      ∀ hs vs c, DrawCmd.plot hs vs c ∈ plotLoop g b st ps →
        ∀ q ∈ vs.zip hs, Q q
  | [], _, _, _, _, _, c, hcmd => absurd hcmd (List.not_mem_nil _)
  | p :: rest, st, hinv, hps, hs, vs, c, hcmd => by
      simp only [plotLoop] at hcmd
      rcases List.mem_append.mp hcmd with h | h
      · exact stepPoint_cmds_zip Q g b st p rest.isEmpty hinv
          (hps p (List.mem_cons_self p rest)) hs vs c h
      · exact plotLoop_zip Q g b rest _
          (stepPoint_snd_inv Q g b st p rest.isEmpty hinv
            (hps p (List.mem_cons_self p rest)))
          (fun p' hp' => hps p' (List.mem_cons_of_mem p hp')) hs vs c h

theorem lineLabels_mem_iff (b : ℚ) (ls : List SpectralLineRec)
    (line : SpectralLineRec) (hline : line ∈ ls) :
    (DrawCmd.text line.pos.2 line.pos.1 (LabelText.lineName line.name) ∈
        lineLabels b ls) ↔
      (-b < line.pos.1 ∧ line.pos.1 < b ∧ -b < line.pos.2 ∧ line.pos.2 < b) := by
  constructor
  · intro hmem
    simp only [lineLabels] at hmem
    obtain ⟨line', hl', hm⟩ := List.mem_flatMap.mp hmem
    split_ifs at hm with h₁ h₂
    · rw [List.mem_singleton] at hm
      injection hm with e1 e2 e3
      rw [e1, e2]
      exact ⟨h₁.1, h₁.2, h₂.1, h₂.2⟩
    · exact absurd hm (List.not_mem_nil _)
    · exact absurd hm (List.not_mem_nil _)
  · rintro ⟨g₁, g₂, g₃, g₄⟩
    simp only [lineLabels]
    refine List.mem_flatMap.mpr ⟨line, hline, ?_⟩
    rw [if_pos ⟨g₁, g₂⟩, if_pos ⟨g₃, g₄⟩]
    exact List.mem_singleton.mpr rfl

theorem wavelength_to_rgb_nonneg (g : ℚ → ℚ) (hg : ∀ x, 0 ≤ g x) (wl : ℚ) :
    0 ≤ (wavelength_to_rgb g wl).R ∧ 0 ≤ (wavelength_to_rgb g wl).G ∧
      0 ≤ (wavelength_to_rgb g wl).B := by
  unfold wavelength_to_rgb
  split_ifs <;> refine ⟨?_, ?_, ?_⟩ <;> first | exact hg _ | norm_num

/-! ## Claims about `plot_echellogram` -/

/-- C1 (code bug): evaluating the assembly loop on the single-point stream
`[(m = 1, wl = 0.5, x = 4, y = 3)]` draws polylines holding 3 points in total
(an empty initial flush plus a 3-point polyline, the final point having been
appended by the reset block, again by the `m == working_m` block and a third
time by the last-point block), where the claim requires exactly 1 point in
total with the final point included exactly once. -/
theorem c1_total_points_three_for_one_input_point :
    totalPlottedPoints
        (plot_echellogram (fun x => x * x) [⟨1, 1/2, 4, 3⟩] [] 40) = 3 := by
  norm_num [plot_echellogram, plotLoop, stepPoint, step1Cmds, step1State,
    step2State, pushPoint, initSt, emitCurve, changeLabels, npMean,
    wavelength_to_rgb, lineLabels, totalPlottedPoints, plotPointCount]

/-- C4 counterexample: a polyline whose wavelengths (0.1 µm, i.e. 100 nm)
average to a value the mapper sends to the sentinel is drawn with color
`(0, 0, 0)` — matplotlib's `"k"`, i.e. literally black — refuting the claim
that such polylines get a neutral color that is not black. -/
theorem c4_counterexample :
    DrawCmd.plot [3, 3, 3] [4, 4, 4] ⟨0, 0, 0⟩ ∈
      plot_echellogram (fun x => x * x) [⟨1, 1/10, 4, 3⟩] [] 40 ∧
    wavelength_to_rgb (fun x => x * x)
        (npMean (([1/10, 1/10, 1/10] : List ℚ).map (· * 1000))) = ⟨0, 0, 0⟩ := by
  constructor <;>
    norm_num [plot_echellogram, plotLoop, stepPoint, step1Cmds, step1State,
      step2State, pushPoint, initSt, emitCurve, changeLabels, npMean,
      wavelength_to_rgb, lineLabels, List.mem_cons]

/-- C4 amended: the `sum == 0` special case never changes the drawn color.
For any gamma model with nonnegative values (as the float power is on this
domain), a zero channel sum forces the mapped color to be exactly `(0,0,0)`,
which is also what the fallback `"k"` denotes, so the curve-drawing block
always draws the mapper's color and sentinel polylines are painted literally
black. -/
theorem c4_sentinel_fallback_is_black (g : ℚ → ℚ) (hg : ∀ x, 0 ≤ g x)
    (ys xs wls : List ℚ) :
    emitCurve g ys xs wls =
      DrawCmd.plot ys xs (wavelength_to_rgb g (npMean (wls.map (· * 1000)))) := by
  simp only [emitCurve]
  split_ifs with h
  · obtain ⟨hR, hG, hB⟩ :=
      wavelength_to_rgb_nonneg g hg (npMean (wls.map (· * 1000)))
    have hRz : (wavelength_to_rgb g (npMean (wls.map (· * 1000)))).R = 0 := by
      linarith
    have hGz : (wavelength_to_rgb g (npMean (wls.map (· * 1000)))).G = 0 := by
      linarith
    have hBz : (wavelength_to_rgb g (npMean (wls.map (· * 1000)))).B = 0 := by
      linarith
    have hcol : wavelength_to_rgb g (npMean (wls.map (· * 1000))) =
        ⟨(wavelength_to_rgb g (npMean (wls.map (· * 1000)))).R,
          (wavelength_to_rgb g (npMean (wls.map (· * 1000)))).G,
          (wavelength_to_rgb g (npMean (wls.map (· * 1000)))).B⟩ := rfl
    rw [hcol, hRz, hGz, hBz]
  · rfl

/-- Witness for the amended C4 with `gamma = 2` on a sentinel polyline. -/
theorem c4_witness :
    emitCurve (fun x => x * x) [3] [4] [1/10] =
      DrawCmd.plot [3] [4]
        (wavelength_to_rgb (fun x => x * x)
          (npMean (([1/10] : List ℚ).map (· * 1000)))) :=
  c4_sentinel_fallback_is_black (fun x => x * x)
    (fun x => mul_self_nonneg x) [3] [4] [1/10]

/-- C7 counterexample: on the stream `[(m = 1, wl = 0.5, x = 4, y = 3)]` the
loop's very first order change flushes the still-empty initial accumulator,
issuing an `ax.plot` call with empty coordinate lists — an empty drawn
polyline, refuting the claim that every emitted polyline has at least one
point and that the first input point opens the first accumulator with no
prior emit. -/
theorem c7_counterexample :
    DrawCmd.plot [] [] ⟨0, 0, 0⟩ ∈
      plot_echellogram (fun x => x * x) [⟨1, 1/2, 4, 3⟩] [] 40 := by
  norm_num [plot_echellogram, plotLoop, stepPoint, step1Cmds, step1State,
    step2State, pushPoint, initSt, emitCurve, changeLabels, npMean,
    wavelength_to_rgb, lineLabels, List.mem_cons]

/-- C7 amended: every `ax.plot` call of the assembly loop after the first
command has a nonempty point list, and an empty plot can only be the loop's
very first command: the flush of the empty initial accumulator, drawn with
empty lists in black, which happens exactly when the first point's order
differs from the sentinel `0`. -/
theorem c7_only_the_initial_flush_is_empty (g : ℚ → ℚ) (b : ℚ)
    (ps : List SFPoint) :
    (∀ cmd ∈ (plotLoop g b initSt ps).tail, isEmptyPlot cmd = false) ∧
    (∀ cmd ∈ plotLoop g b initSt ps, isEmptyPlot cmd = true →
      cmd = DrawCmd.plot [] [] ⟨0, 0, 0⟩ ∧
        (∃ p rest, ps = p :: rest ∧ p.m ≠ 0) ∧
        (plotLoop g b initSt ps).head? = some cmd) := by
  cases ps with
  | nil =>
      exact ⟨fun cmd hcmd => absurd hcmd (List.not_mem_nil cmd),
        fun cmd hcmd => absurd hcmd (List.not_mem_nil cmd)⟩
  | cons p rest =>
      by_cases hm : p.m = 0
      · have hall : ∀ cmd ∈ plotLoop g b initSt (p :: rest),
            isEmptyPlot cmd = false := by
          intro cmd hcmd
          simp only [plotLoop] at hcmd
          rcases List.mem_append.mp hcmd with h | h
          · have h1 : step1Cmds g b initSt p = [] := by
              unfold step1Cmds
              rw [if_neg (not_not_intro (show p.m = initSt.working_m from hm))]
            unfold stepPoint at h
            split_ifs at h
            · rw [h1, List.nil_append, List.mem_singleton] at h
              subst h
              exact isEmptyPlot_emitCurve g _ _ _ (by simp [pushPoint])
            · rw [h1] at h
              exact absurd h (List.not_mem_nil cmd)
          · exact plotLoop_no_empty g b rest _
              (stepPoint_snd_ys g b initSt p rest.isEmpty) cmd h
        constructor
        · intro cmd hcmd
          exact hall cmd (List.mem_of_mem_tail hcmd)
        · intro cmd hcmd hempty
          rw [hall cmd hcmd] at hempty
          exact absurd hempty Bool.false_ne_true
      · have hstep1 : step1Cmds g b initSt p =
            DrawCmd.plot [] [] ⟨0, 0, 0⟩ :: changeLabels b p.m [] [] [] := by
          unfold step1Cmds
          rw [if_pos (show p.m ≠ initSt.working_m from hm)]
          have hflush : emitCurve g ([] : List ℚ) [] [] =
              DrawCmd.plot [] [] ⟨0, 0, 0⟩ := by
            norm_num [emitCurve, npMean, wavelength_to_rgb]
          rw [show initSt.order_ys = ([] : List ℚ) from rfl,
            show initSt.order_xs = ([] : List ℚ) from rfl,
            show initSt.order_wls = ([] : List ℚ) from rfl, hflush]
        have hlabels : changeLabels b p.m ([] : List ℚ) [] [] = [] :=
          changeLabels_eq_nil b p.m [] [] [] (by norm_num)
        have hcmds : ∃ tl, (stepPoint g b initSt p rest.isEmpty).1 =
            DrawCmd.plot [] [] ⟨0, 0, 0⟩ :: tl ∧
            ∀ c ∈ tl, isEmptyPlot c = false := by
          unfold stepPoint
          split_ifs
          · refine ⟨[emitCurve g (pushPoint (step2State initSt p) p).order_ys
              (pushPoint (step2State initSt p) p).order_xs
              (pushPoint (step2State initSt p) p).order_wls], ?_, ?_⟩
            · rw [hstep1, hlabels]
              rfl
            · intro c hc
              rw [List.mem_singleton] at hc
              subst hc
              exact isEmptyPlot_emitCurve g _ _ _ (by simp [pushPoint])
          · exact ⟨changeLabels b p.m [] [] [], hstep1, by
              rw [hlabels]
              exact fun c hc => absurd hc (List.not_mem_nil c)⟩
        obtain ⟨tl, htl, htlne⟩ := hcmds
        have hloop : plotLoop g b initSt (p :: rest) =
            DrawCmd.plot [] [] ⟨0, 0, 0⟩ ::
              (tl ++ plotLoop g b (stepPoint g b initSt p rest.isEmpty).2 rest) := by
          simp only [plotLoop]
          rw [htl, List.cons_append]
        have htail : ∀ cmd ∈
            tl ++ plotLoop g b (stepPoint g b initSt p rest.isEmpty).2 rest,
            isEmptyPlot cmd = false := by
          intro cmd hcmd
          rcases List.mem_append.mp hcmd with h | h
          · exact htlne cmd h
          · exact plotLoop_no_empty g b rest _
              (stepPoint_snd_ys g b initSt p rest.isEmpty) cmd h
        constructor
        · rw [hloop]
          intro cmd hcmd
          exact htail cmd hcmd
        · intro cmd hcmd hempty
          rw [hloop, List.mem_cons] at hcmd
          rcases hcmd with hc | hc
          · subst hc
            exact ⟨rfl, ⟨p, rest, rfl, hm⟩, by rw [hloop]; rfl⟩
          · rw [htail cmd hc] at hempty
            exact absurd hempty Bool.false_ne_true

/-- Witness for the amended C7: on a concrete one-point stream, the command
following the initial flush is a nonempty polyline. -/
theorem c7_witness :
    isEmptyPlot (DrawCmd.plot [3, 3, 3] [4, 4, 4] ⟨0, 1, 1/4⟩) = false :=
  (c7_only_the_initial_flush_is_empty (fun x => x * x) 50 [⟨1, 1/2, 4, 3⟩]).1
    (DrawCmd.plot [3, 3, 3] [4, 4, 4] ⟨0, 1, 1/4⟩)
    (by norm_num [plotLoop, stepPoint, step1Cmds, step1State, step2State,
      pushPoint, initSt, emitCurve, changeLabels, npMean, wavelength_to_rgb,
      List.mem_cons])

/-- C5 counterexample: the stream holds an order-4 polyline (two points at
`(4, 3)`) closed by an incoming order-5 point.  The full draw list shows both
labels being issued for the order-4 polyline (their position `(3, 4)` and
wavelength 500 nm come from its data, and the order-number text reads 5, the
*incoming* order), even though 4 is not a multiple of 5 — and the final
order-5 polyline receives no label at all. -/
theorem c5_counterexample :
    plot_echellogram (fun x => x * x) [⟨4, 1/2, 4, 3⟩, ⟨5, 1/2, 20, 21⟩] [] 40 =
      [DrawCmd.setXlim (-50) 50, DrawCmd.setYlim (-50) 50,
        DrawCmd.plot [] [] ⟨0, 0, 0⟩,
        DrawCmd.plot [3, 3] [4, 4] ⟨0, 1, 1/4⟩,
        DrawCmd.text 3 4 (LabelText.wavelengthLabel 500 false),
        DrawCmd.text 3 4 (LabelText.orderLabel 5 false),
        DrawCmd.plot [21, 21, 21] [20, 20, 20] ⟨0, 1, 1/4⟩,
        DrawCmd.polygon [(-40, -40), (40, -40), (40, 40), (-40, 40)]] ∧
    (4 : ℤ) % 5 ≠ 0 := by
  constructor
  · norm_num [plot_echellogram, plotLoop, stepPoint, step1Cmds, step1State,
      step2State, pushPoint, initSt, emitCurve, changeLabels, npMean,
      wavelength_to_rgb, lineLabels]
  · decide

/-- C5 amended: the label blocks run at an order change and are gated on the
*incoming* point's order `m` — they emit nothing unless `m % 5 == 0` and the
closing accumulator is nonempty; every label they emit is positioned on the
closing accumulator's data but displays the incoming order's number `|m|`;
and the last-point flush adds no label commands at all. -/
theorem c5_label_gate_uses_incoming_order (g : ℚ → ℚ) (b : ℚ) (m : ℤ)
    (xs ys wls : List ℚ) (st : PlotState) (p : SFPoint) :
    (¬(0 < xs.length ∧ m % 5 = 0) → changeLabels b m xs ys wls = []) ∧
    (∀ cmd ∈ changeLabels b m xs ys wls,
      m % 5 = 0 ∧
        (cmd = DrawCmd.text (ys.headD 0) (xs.headD 0)
            (LabelText.wavelengthLabel (wls.headD 0 * 1000) (m.natAbs == 90)) ∨
          cmd = DrawCmd.text (ys.getLastD 0) (xs.getLastD 0)
            (LabelText.orderLabel m.natAbs (m.natAbs == 90)))) ∧
    (stepPoint g b st p true).1.filter isText =
      (stepPoint g b st p false).1.filter isText := by
  refine ⟨changeLabels_eq_nil b m xs ys wls, ?_, ?_⟩
  · intro cmd hcmd
    obtain ⟨h5, -, hsh⟩ := changeLabels_mem_shape b m xs ys wls cmd hcmd
    exact ⟨h5, hsh⟩
  · have htrue : stepPoint g b st p true =
        (step1Cmds g b st p ++
          [emitCurve g (pushPoint (step2State st p) p).order_ys
            (pushPoint (step2State st p) p).order_xs
            (pushPoint (step2State st p) p).order_wls],
          pushPoint (step2State st p) p) := by
      unfold stepPoint
      rw [if_pos rfl]
    have hfalse : stepPoint g b st p false =
        (step1Cmds g b st p, step2State st p) := by
      unfold stepPoint
      rw [if_neg Bool.false_ne_true]
    rw [htrue, hfalse]
    have hemit : isText (emitCurve g (pushPoint (step2State st p) p).order_ys
        (pushPoint (step2State st p) p).order_xs
        (pushPoint (step2State st p) p).order_wls) = false := by
      obtain ⟨c, hc⟩ := emitCurve_shape g _ _ _
      rw [hc]
      rfl
    rw [List.filter_append]
    have hone : List.filter isText
        [emitCurve g (pushPoint (step2State st p) p).order_ys
          (pushPoint (step2State st p) p).order_xs
          (pushPoint (step2State st p) p).order_wls] = [] := by
      simp [List.filter, hemit]
    rw [hone, List.append_nil]

/-- Witness for the amended C5: `m = 7` emits no labels, and on a concrete
last point the flush adds no label commands. -/
theorem c5_witness :
    changeLabels 50 7 [1] [2] [3] = [] ∧
    (stepPoint (fun x => x * x) 50 initSt ⟨1, 1/2, 4, 3⟩ true).1.filter isText =
      (stepPoint (fun x => x * x) 50 initSt ⟨1, 1/2, 4, 3⟩ false).1.filter
        isText :=
  ⟨(c5_label_gate_uses_incoming_order (fun x => x * x) 50 7 [1] [2] [3] initSt
      ⟨1, 1/2, 4, 3⟩).1 (by decide),
    (c5_label_gate_uses_incoming_order (fun x => x * x) 50 7 [1] [2] [3] initSt
      ⟨1, 1/2, 4, 3⟩).2.2⟩

/-- C8 counterexample: an order-4 polyline whose first sample `(100, 100)`
falls outside the viewport but whose last sample `(4, 3)` lies inside it
(with the label's own margin), closed by an incoming order-5 point: the pass
draws no text at all — the order-number label decision tested the *first*
sample, not the last one as the claim states. -/
theorem c8_counterexample :
    (plot_echellogram (fun x => x * x)
        [⟨4, 1/2, 100, 100⟩, ⟨4, 1/2, 4, 3⟩, ⟨5, 1/2, 200, 200⟩] [] 40).filter
      isText = [] ∧
    (-50 < (4 : ℚ) ∧ (4 : ℚ) < 50 ∧ -50 < (3 : ℚ) - 3 ∧ (3 : ℚ) < 50) := by
  constructor
  · norm_num [plot_echellogram, plotLoop, stepPoint, step1Cmds, step1State,
      step2State, pushPoint, initSt, emitCurve, changeLabels, npMean,
      wavelength_to_rgb, lineLabels, List.filter, isText]
  · norm_num

/-- C8 amended: for a qualifying order change (`m % 5 == 0`, nonempty closing
accumulator), the order-number label is emitted exactly when the *first*
sample passes the viewport test — `order_xs[0]` strictly within the x-limits
and `order_ys[0] - 3` / `order_ys[0]` within the y-limits — and it is then
drawn at the *last* sample's position. -/
theorem c8_order_label_gate_tests_first_sample (b : ℚ) (m : ℤ)
    (xs ys wls : List ℚ) (h5 : m % 5 = 0) (hxs : 0 < xs.length) :
    (DrawCmd.text (ys.getLastD 0) (xs.getLastD 0)
        (LabelText.orderLabel m.natAbs (m.natAbs == 90)) ∈
        changeLabels b m xs ys wls) ↔
      (-b < xs.headD 0 ∧ xs.headD 0 < b ∧
        -b < ys.headD 0 - 3 ∧ ys.headD 0 < b) := by
  unfold changeLabels
  rw [if_pos ⟨hxs, h5⟩]
  constructor
  · intro hmem
    rcases List.mem_append.mp hmem with h | h
    · split_ifs at h with h₁ h₂
      · rw [List.mem_singleton] at h
        injection h with e1 e2 e3
        exact LabelText.noConfusion e3
      · exact absurd h (List.not_mem_nil _)
      · exact absurd h (List.not_mem_nil _)
    · split_ifs at h with h₁ h₂
      · exact ⟨h₁.1, h₁.2, h₂.1, h₂.2⟩
      · exact absurd h (List.not_mem_nil _)
      · exact absurd h (List.not_mem_nil _)
  · rintro ⟨g₁, g₂, g₃, g₄⟩
    refine List.mem_append.mpr (Or.inr ?_)
    rw [if_pos ⟨g₁, g₂⟩, if_pos ⟨g₃, g₄⟩]
    exact List.mem_singleton.mpr rfl

/-- Witness for the amended C8 on a concrete qualifying polyline whose first
sample passes the gate. -/
theorem c8_witness :
    DrawCmd.text (([3, 3] : List ℚ).getLastD 0) (([4, 4] : List ℚ).getLastD 0)
        (LabelText.orderLabel (Int.natAbs 5) (Int.natAbs 5 == 90)) ∈
      changeLabels 50 5 [4, 4] [3, 3] [1/2, 1/2] :=
  (c8_order_label_gate_tests_first_sample 50 5 [4, 4] [3, 3] [1/2, 1/2]
    (by decide) (by decide)).mpr (by norm_num)

/-- C10: the renderer's drawing calls transpose the stream coordinates and
the viewport is the square `(-b, b)` on both axes with `b = |dc0| * 1.25`:
the axis-limit calls set identical x and y ranges; every point of every
plotted polyline has the stream's `y` as its horizontal and the stream's `x`
as its vertical coordinate, both coming from one input point; and a spectral
line's name — drawn at the transposed position `(y, x)` — is drawn exactly
when that position lies strictly inside the viewport square, the `x` vs
x-limits / `y` vs y-limits test being equivalent because the two limit pairs
coincide. -/
theorem c10_transposed_drawing_and_square_viewport (g : ℚ → ℚ)
    (ps : List SFPoint) (ls : List SpectralLineRec) (dc0 : ℚ) :
    (DrawCmd.setXlim (-(|dc0| * (5/4))) (|dc0| * (5/4)) ∈
        plot_echellogram g ps ls dc0 ∧
      DrawCmd.setYlim (-(|dc0| * (5/4))) (|dc0| * (5/4)) ∈
        plot_echellogram g ps ls dc0) ∧
    (∀ hs vs c, DrawCmd.plot hs vs c ∈ plot_echellogram g ps ls dc0 →
      ∀ q ∈ vs.zip hs, ∃ p, p ∈ ps ∧ q = (p.x, p.y)) ∧
    (∀ line ∈ ls,
      (DrawCmd.text line.pos.2 line.pos.1 (LabelText.lineName line.name) ∈
          plot_echellogram g ps ls dc0 ↔
        (-(|dc0| * (5/4)) < line.pos.2 ∧ line.pos.2 < |dc0| * (5/4) ∧
          -(|dc0| * (5/4)) < line.pos.1 ∧ line.pos.1 < |dc0| * (5/4)))) := by
  have hout : plot_echellogram g ps ls dc0 =
      DrawCmd.setXlim (-(|dc0| * (5/4))) (|dc0| * (5/4)) ::
        DrawCmd.setYlim (-(|dc0| * (5/4))) (|dc0| * (5/4)) ::
          (plotLoop g (|dc0| * (5/4)) initSt ps ++
            lineLabels (|dc0| * (5/4)) ls ++
            [DrawCmd.polygon [(-|dc0|, -|dc0|), (|dc0|, -|dc0|),
              (|dc0|, |dc0|), (-|dc0|, |dc0|)]]) := rfl
  refine ⟨⟨?_, ?_⟩, ?_, ?_⟩
  · rw [hout]
    exact List.mem_cons_self _ _
  · rw [hout]
    exact List.mem_cons_of_mem _ (List.mem_cons_self _ _)
  · intro hs vs c hcmd
    rw [hout] at hcmd
    rcases List.mem_cons.mp hcmd with h | hcmd
    · exact DrawCmd.noConfusion h
    rcases List.mem_cons.mp hcmd with h | hcmd
    · exact DrawCmd.noConfusion h
    rcases List.mem_append.mp hcmd with hcmd2 | hpoly
    · rcases List.mem_append.mp hcmd2 with hloop | hlab
      · exact plotLoop_zip _ g (|dc0| * (5/4)) ps initSt (initSt_inv _)
          (fun p hp => ⟨p, hp, rfl⟩) hs vs c hloop
      · exfalso
        simp only [lineLabels] at hlab
        obtain ⟨line', hl', hm⟩ := List.mem_flatMap.mp hlab
        split_ifs at hm with h₁ h₂
        · rw [List.mem_singleton] at hm
          exact DrawCmd.noConfusion hm
        · exact List.not_mem_nil _ hm
        · exact List.not_mem_nil _ hm
    · rw [List.mem_singleton] at hpoly
      exact DrawCmd.noConfusion hpoly
  · intro line hline
    constructor
    · intro hmem
      rw [hout] at hmem
      rcases List.mem_cons.mp hmem with h | hmem
      · exact DrawCmd.noConfusion h
      rcases List.mem_cons.mp hmem with h | hmem
      · exact DrawCmd.noConfusion h
      rcases List.mem_append.mp hmem with hmem2 | hpoly
      · rcases List.mem_append.mp hmem2 with hloop | hlab
        · exact absurd rfl (plotLoop_no_lineName g (|dc0| * (5/4)) ps initSt _
            hloop line.pos.2 line.pos.1 line.name)
        · have hiff := (lineLabels_mem_iff (|dc0| * (5/4)) ls line hline).mp hlab
          exact ⟨hiff.2.2.1, hiff.2.2.2, hiff.1, hiff.2.1⟩
      · rw [List.mem_singleton] at hpoly
        exact DrawCmd.noConfusion hpoly
    · rintro ⟨g₁, g₂, g₃, g₄⟩
      rw [hout]
      refine List.mem_cons_of_mem _ (List.mem_cons_of_mem _ ?_)
      refine List.mem_append.mpr (Or.inl (List.mem_append.mpr (Or.inr ?_)))
      exact (lineLabels_mem_iff (|dc0| * (5/4)) ls line hline).mpr
        ⟨g₃, g₄, g₁, g₂⟩

/-- Witness for C10: a concrete in-view spectral line at `(x, y) = (4, 3)` is
drawn (transposed, at `(3, 4)`) on the detector pass with half-extent 40. -/
theorem c10_witness :
    DrawCmd.text 3 4 (LabelText.lineName "Ha") ∈
      plot_echellogram (fun x => x * x) [] [⟨"Ha", -50, 1/2, (4, 3)⟩] 40 :=
  ((c10_transposed_drawing_and_square_viewport (fun x => x * x) []
      [⟨"Ha", -50, 1/2, (4, 3)⟩] 40).2.2 ⟨"Ha", -50, 1/2, (4, 3)⟩
      (List.mem_singleton.mpr rfl)).mpr (by norm_num)
